import Mathlib

/-!
A shallow embedding of the local sequence aligner in `project4.hh`.

The C++ source consists of a penalty table (`BlosumPenaltyArray`, a
`std::map<char, std::map<char, int>>` accessed with `operator[]`) and the
function `local_alignment`, which fills an `(n+1) x (m+1)` dynamic-programming
score matrix `d` and a parallel trace matrix `b` of direction characters,
scans the last row of `d` for the best score, and walks the trace matrix back
to reconstruct the two aligned strings.

Modelling decisions, all visible below:

* The table is an association list keyed by the ordered pair of characters;
  `get_penalty` mirrors `operator[]`: a present key returns its value and
  leaves the table unchanged, a missing key default-inserts the value `0`
  and returns `0`.  `set_penalty` records the newest binding first, so a
  lookup sees the most recent `set`.
* The two matrices are total functions `Nat -> Nat -> Int` / `Nat -> Nat -> Char`,
  initialised to the constants `0` and the unset marker, which is what the
  initialisation pass writes into every allocated cell.
* The source's two inner loops are written `for (int j = ...; j < m+1; i++)`:
  the increment steps `i`, not `j` (and the allocation loop's counter is
  uninitialised, with bound `n+2`).  `innerLoopStep` embeds that loop control
  literally, so that its non-termination and unbounded row index can be
  proved.  The matrix fill `fillAll` embeds the loop bodies with the loop
  control the headers evidently intend (the counter `j` advancing over its
  stated range), which is the only reading under which the function computes
  anything at all; the control-flow slip itself is settled separately via
  `innerLoopStep`.
* The traceback `while (!done)` loop is embedded with explicit fuel; a
  trace character outside the handled set loops with unchanged state in the
  source, and the embedding recurses on the same state, consuming fuel.
-/

/-- The penalty table state: the mapping of `_penaltyMap`, keyed by the
ordered pair `(c1, c2)`. -/
def PTab : Type := List ((Char × Char) × Int)

instance : DecidableEq PTab := by
  unfold PTab
  infer_instance

/-- First binding for a key in the table, the map's notion of lookup. -/
def ptFind : PTab → Char × Char → Option Int
  | [], _ => none
  | (k, v) :: rest, q => if q = k then some v else ptFind rest q

/-- Embeds `get_penalty`: `return _penaltyMap[c1][c2];`.  `operator[]` on a
`std::map` returns the stored value when the key is present, and otherwise
value-initialises the entry to `0`, inserts it, and returns it; the second
component is the table state after the call. -/
def get_penalty (t : PTab) (c1 c2 : Char) : Int × PTab :=
  match ptFind t (c1, c2) with
  | some v => (v, t)
  | none => (0, ((c1, c2), 0) :: t)

/-- Embeds `set_penalty`: `_penaltyMap[c1][c2] = penalty;`.  The newest
binding shadows any older one under `ptFind`. -/
def set_penalty (t : PTab) (c1 c2 : Char) (p : Int) : PTab :=
  ((c1, c2), p) :: t

/-- The value `get_penalty` returns, ignoring the state change. -/
def getVal (t : PTab) (c1 c2 : Char) : Int :=
  (get_penalty t c1 c2).1

/-- Point update of a matrix represented as a total function. -/
def upd2 {α : Type} (f : Nat → Nat → α) (i j : Nat) (v : α) : Nat → Nat → α :=
  fun i2 j2 => if i2 = i ∧ j2 = j then v else f i2 j2

/-- The per-cell choice of the fill loop, lines 233-258 of the source:
nested `if`s on `left > up`, `left > diag`, `up > diag`, returning the
recorded direction character and the chosen (pre-clamp) score. -/
def cellChoice (up left diag : Int) : Char × Int :=
  if left > up then
    (if left > diag then ('l', left) else ('d', diag))
  else
    (if up > diag then ('u', up) else ('d', diag))

/-- State of the fill: the score matrix `d`, the trace matrix `b`, and the
penalty table (threaded because `get_penalty` may insert). -/
def FillState : Type := (Nat → Nat → Int) × (Nat → Nat → Char) × PTab

/-- Body of the fill loop at cell `(i, j)`: the three `get_penalty` calls in
source order (up, left, diag), the nested-`if` choice, and the clamp
`if (d[i][j] < 0) d[i][j] = 0;` which does not touch `b[i][j]`. -/
def fillCell (s1 s2 : List Char) (st : FillState) (i j : Nat) : FillState :=
  let dm := st.1
  let bm := st.2.1
  let c1 := s1.getD (i - 1) '?'
  let c2 := s2.getD (j - 1) '?'
  let r1 := get_penalty st.2.2 c1 '*'
  let r2 := get_penalty r1.2 '*' c2
  let r3 := get_penalty r2.2 c1 c2
  let up := dm (i - 1) j + r1.1
  let left := dm i (j - 1) + r2.1
  let diag := dm (i - 1) (j - 1) + r3.1
  let ch := cellChoice up left diag
  let v := if ch.2 < 0 then 0 else ch.2
  (upd2 dm i j v, upd2 bm i j ch.1, r3.2)

/-- The whole fill pass: matrices initialised to `0` and the unset marker on
every cell, then the doubly nested loop over `i` in `1..n`, `j` in `1..m`. -/
def fillAll (t : PTab) (s1 s2 : List Char) : FillState :=
  List.foldl
    (fun st i => List.foldl (fun st2 j => fillCell s1 s2 st2 i j) st
      (List.range' 1 s2.length))
    ((fun _ _ => (0 : Int)), (fun _ _ => '?'), t)
    (List.range' 1 s1.length)

/-- The optimum search, lines 267-276: `best_i` is fixed at `n` and only the
last row is scanned, starting from `best_score = 0`, `best_j = 0`. -/
def scanRow (dm : Nat → Nat → Int) (n m : Nat) : Int × Nat :=
  List.foldl (fun acc j => if dm n j > acc.1 then (dm n j, j) else acc)
    ((0 : Int), (0 : Nat)) (List.range' 1 m)

/-- The traceback `while (!done)` loop, lines 277-305, with explicit fuel.
Each recognised direction appends one character to each output and moves;
the unset marker stops; any other character leaves the state unchanged
(the source would loop forever there). -/
def traceback (bm : Nat → Nat → Char) (s1 s2 : List Char) :
    Nat → Nat → Nat → List Char × List Char
  | 0, _, _ => ([], [])
  | fuel + 1, i, j =>
    if bm i j = 'u' then
      let r := traceback bm s1 s2 fuel (i - 1) j
      (s1.getD (i - 1) '?' :: r.1, '*' :: r.2)
    else if bm i j = 'l' then
      let r := traceback bm s1 s2 fuel i (j - 1)
      ('*' :: r.1, s2.getD (j - 1) '?' :: r.2)
    else if bm i j = 'd' then
      let r := traceback bm s1 s2 fuel (i - 1) (j - 1)
      (s1.getD (i - 1) '?' :: r.1, s2.getD (j - 1) '?' :: r.2)
    else if bm i j = '?' then ([], [])
    else traceback bm s1 s2 fuel i j

/-- Embeds `local_alignment`: fill, last-row scan, traceback from
`(n, best_j)`, and the final reversal of both accumulated strings.
Returns `(best_score, matchString1, matchString2)`. -/
def local_alignment (s1 s2 : List Char) (t : PTab) :
    Int × List Char × List Char :=
  let n := s1.length
  let m := s2.length
  let fr := fillAll t s1 s2
  let sb := scanRow fr.1 n m
  let ms := traceback fr.2.1 s1 s2 (n + m + 1) n sb.2
  (sb.1, ms.1.reverse, ms.2.reverse)

/-- The table state after an alignment call: the third component of the fill
state (the scan and the traceback perform no table accesses). -/
def alignTable (t : PTab) (s1 s2 : List Char) : PTab :=
  (fillAll t s1 s2).2.2

/-- Maximum value anywhere in the score matrix over `0..n` x `0..m` (the
property the specification requires of the returned score). -/
def matrixMax (dm : Nat → Nat → Int) (n m : Nat) : Int :=
  List.foldl
    (fun acc i => List.foldl (fun acc2 j => max acc2 (dm i j)) acc
      (List.range (m + 1)))
    (dm 0 0) (List.range (n + 1))

/-- Literal embedding of the control flow of the source's two inner loops
(lines 213, 220 and 228): the loop state is `(i, j)` and each iteration
executes `i++`, leaving `j` untouched, while the guard tests `j`. -/
def innerLoopStep (s : Nat × Nat) : Nat × Nat :=
  (s.1 + 1, s.2)

/-- The symmetric table used for the concrete score evaluations: A-A scores 5
and every other pair occurring between the test sequences scores -1, with
equal values on swapped pairs; pairs outside the list default to 0 on lookup,
also symmetrically. -/
def tabS : PTab :=
  [(('A', 'A'), 5), (('A', 'B'), -1), (('B', 'A'), -1),
   (('A', '*'), -1), (('*', 'A'), -1), (('B', '*'), -1), (('*', 'B'), -1)]

/-- A table on the single symbol A in which every penalty is -1, so the only
inner cell of the 1 x 1 alignment clamps to 0. -/
def tabNeg : PTab :=
  [(('A', 'A'), -1), (('A', '*'), -1), (('*', 'A'), -1)]

lemma foldl_invP {α β : Type} (P : β → Prop) (f : β → α → β) :
    ∀ (l : List α) (b : β), P b → (∀ b2 a, a ∈ l → P b2 → P (f b2 a)) →
      P (List.foldl f b l) := by
  intro l
  induction l with
  | nil => intro b hb _; exact hb
  | cons x xs ih =>
    intro b hb hstep
    exact ih (f b x) (hstep b x (List.mem_cons_self x xs) hb)
      (fun b2 a ha => hstep b2 a (List.mem_cons_of_mem x ha))

lemma foldl_id {α β : Type} (f : β → α → β) (h : ∀ b a, f b a = b) :
    ∀ (l : List α) (b : β), List.foldl f b l = b := by
  intro l
  induction l with
  | nil => intro b; rfl
  | cons x xs ih => intro b; rw [List.foldl_cons, h b x, ih b]

lemma foldl_keep {α β : Type} (f : β → α → β) (b : β) (h : ∀ a, f b a = b) :
    ∀ (l : List α), List.foldl f b l = b := by
  intro l
  induction l with
  | nil => rfl
  | cons x xs ih => rw [List.foldl_cons, h x, ih]

lemma foldl_scan_mono (dm : Nat → Nat → Int) (n : Nat) :
    ∀ (l : List Nat) (acc : Int × Nat),
      acc.1 ≤ (List.foldl
        (fun acc2 j => if dm n j > acc2.1 then (dm n j, j) else acc2) acc l).1 := by
  intro l
  induction l with
  | nil => intro acc; exact le_refl _
  | cons x xs ih =>
    intro acc
    rw [List.foldl_cons]
    refine le_trans ?_ (ih (if dm n x > acc.1 then (dm n x, x) else acc))
    by_cases hc : dm n x > acc.1
    · rw [if_pos hc]; exact le_of_lt hc
    · rw [if_neg hc]

lemma scanRow_fst_nonneg (dm : Nat → Nat → Int) (n m : Nat) :
    0 ≤ (scanRow dm n m).1 := by
  unfold scanRow
  exact foldl_scan_mono dm n (List.range' 1 m) (0, 0)

lemma traceback_len (bm : Nat → Nat → Char) (s1 s2 : List Char) :
    ∀ (fuel i j : Nat),
      (traceback bm s1 s2 fuel i j).1.length =
        (traceback bm s1 s2 fuel i j).2.length := by
  intro fuel
  induction fuel with
  | zero => intro i j; rfl
  | succ f ih =>
    intro i j
    by_cases h1 : bm i j = 'u'
    · simp [traceback, h1, ih]
    · by_cases h2 : bm i j = 'l'
      · simp [traceback, h1, h2, ih]
      · by_cases h3 : bm i j = 'd'
        · simp [traceback, h1, h2, h3, ih]
        · by_cases h4 : bm i j = '?'
          · simp [traceback, h1, h2, h3, h4]
          · simp [traceback, h1, h2, h3, h4, ih]

/-- C2: the claim says the matrix loops visit each cell finitely and stay
inside the `(n+1) x (m+1)` bounds.  The source's inner loops execute `i++`
where `j++` is required (lines 220 and 228), so after any number `k` of
iterations the guard variable `j` is unchanged (the guard `j < m+1` never
fails: the loop does not terminate) while the row index `i` has grown by `k`
(so it passes any allocation bound).  The code therefore violates the
claim. -/
theorem c2_inner_loop_never_exits (m k i0 j0 : Nat) (h : j0 < m + 1) :
    (innerLoopStep^[k] (i0, j0)).2 < m + 1 ∧
      (innerLoopStep^[k] (i0, j0)).1 = i0 + k := by
  induction k with
  | zero => simpa using h
  | succ k ih =>
    rw [Function.iterate_succ_apply']
    refine ⟨ih.1, ?_⟩
    show (innerLoopStep^[k] (i0, j0)).1 + 1 = i0 + (k + 1)
    rw [ih.2, Nat.add_assoc]

/-- Witness for C2's theorem at `m = 1`, five iterations from `(0, 0)`. -/
theorem c2_inner_loop_never_exits_w :
    (innerLoopStep^[5] (0, 0)).2 < 1 + 1 ∧ (innerLoopStep^[5] (0, 0)).1 = 0 + 5 :=
  c2_inner_loop_never_exits 1 5 0 0 (by decide)

/-- C4, counterexample: on a table in which the pair (A, B) was never set,
`get_penalty` does not fail: it returns the value 0 (and default-inserts the
pair), contradicting the claim that an unset pair raises `LookupError` and
never silently yields zero. -/
theorem c4_get_returns_zero_unset :
    ptFind ([] : PTab) ('A', 'B') = none ∧
      (get_penalty ([] : PTab) 'A' 'B').1 = 0 := by decide

/-- C4, amended: `get_penalty` returns the integer recorded by the most
recent `set_penalty` for the pair, and for a never-set pair it returns 0
(default-insertion) instead of failing. -/
theorem c4_get_penalty_spec (t : PTab) (a b : Char) (p : Int) :
    (get_penalty (set_penalty t a b p) a b).1 = p ∧
      (ptFind t (a, b) = none → (get_penalty t a b).1 = 0) := by
  constructor
  · simp [get_penalty, set_penalty, ptFind]
  · intro h
    simp [get_penalty, h]

/-- Witness for C4's amended theorem on the empty table with penalty 7. -/
theorem c4_get_penalty_spec_w :
    (get_penalty (set_penalty ([] : PTab) 'A' 'B' 7) 'A' 'B').1 = 7 ∧
      (get_penalty ([] : PTab) 'A' 'B').1 = 0 :=
  ⟨(c4_get_penalty_spec ([] : PTab) 'A' 'B' 7).1,
   (c4_get_penalty_spec ([] : PTab) 'A' 'B' 7).2 (by decide)⟩

/-- C6: the returned score is never negative: the scan starts from
`best_score = 0` and only ever replaces it by a strictly larger value. -/
theorem c6_score_nonneg (s1 s2 : List Char) (t : PTab) :
    0 ≤ (local_alignment s1 s2 t).1 := by
  show 0 ≤ (scanRow (fillAll t s1 s2).1 s1.length s2.length).1
  exact scanRow_fst_nonneg _ _ _

/-- C7: the two aligned output strings have equal length: every traceback
step appends exactly one character to each accumulator, and both are
reversed at the end. -/
theorem c7_outputs_equal_length (s1 s2 : List Char) (t : PTab) :
    (local_alignment s1 s2 t).2.1.length = (local_alignment s1 s2 t).2.2.length := by
  simp only [local_alignment, List.length_reverse]
  exact traceback_len _ s1 s2 _ _ _

/-- C10: the fill step's tie-break.  Whenever the diagonal candidate is at
least both others (in particular at every tie it participates in), the
recorded direction is the diagonal; and the left direction is recorded only
when the left candidate strictly exceeds the up candidate. -/
theorem c10_cellChoice_tiebreak (up left diag : Int) :
    ((up ≤ diag ∧ left ≤ diag) → (cellChoice up left diag).1 = 'd') ∧
      ((cellChoice up left diag).1 = 'l' → up < left) := by
  unfold cellChoice
  constructor
  · rintro ⟨h1, h2⟩
    by_cases hlu : left > up
    · rw [if_pos hlu, if_neg (not_lt.mpr h2)]
    · rw [if_neg hlu, if_neg (not_lt.mpr h1)]
  · intro h
    by_cases hlu : left > up
    · exact hlu
    · rw [if_neg hlu] at h
      by_cases hud : up > diag
      · rw [if_pos hud] at h
        have h2 : ('u' : Char) = 'l' := h
        exact absurd h2 (by decide)
      · rw [if_neg hud] at h
        have h2 : ('d' : Char) = 'l' := h
        exact absurd h2 (by decide)

/-- Witness for C10's theorem: an all-equal tie records the diagonal, and a
strictly dominant left candidate records left (so up < left there). -/
theorem c10_cellChoice_tiebreak_w :
    (cellChoice 1 1 1).1 = 'd' ∧ (0 : Int) < 2 :=
  ⟨(c10_cellChoice_tiebreak 1 1 1).1 (by decide),
   (c10_cellChoice_tiebreak 0 2 1).2 (by decide)⟩

lemma fillAll_nil_left (t : PTab) (s2 : List Char) :
    fillAll t [] s2 = ((fun _ _ => (0 : Int)), (fun _ _ => '?'), t) := rfl

lemma fillAll_nil_right (t : PTab) (s1 : List Char) :
    fillAll t s1 [] = ((fun _ _ => (0 : Int)), (fun _ _ => '?'), t) := by
  unfold fillAll
  exact foldl_id _ (fun b a => rfl) _ _

lemma scanRow_zero_matrix (n m : Nat) :
    scanRow (fun _ _ => (0 : Int)) n m = (0, 0) := by
  unfold scanRow
  exact foldl_keep _ _ (fun j => by simp) _

lemma scanRow_m_zero (dm : Nat → Nat → Int) (n : Nat) :
    scanRow dm n 0 = (0, 0) := rfl

lemma traceback_unset (bm : Nat → Nat → Char) (s1 s2 : List Char) (fuel i j : Nat)
    (h : bm i j = '?') : traceback bm s1 s2 (fuel + 1) i j = ([], []) := by
  have h1 : ('?' : Char) ≠ 'u' := by decide
  have h2 : ('?' : Char) ≠ 'l' := by decide
  have h3 : ('?' : Char) ≠ 'd' := by decide
  simp [traceback, h, h1, h2, h3]

/-- C5: an empty first or second sequence yields score 0 and two empty
aligned outputs: with no inner cells the fill leaves both matrices at their
initial values, the last-row scan keeps `(0, 0)`, and the traceback stops at
once on the unset marker. -/
theorem c5_empty_inputs (s1 s2 : List Char) (t : PTab) :
    local_alignment [] s2 t = (0, [], []) ∧ local_alignment s1 [] t = (0, [], []) := by
  constructor
  · simp only [local_alignment, fillAll_nil_left, List.length_nil,
      scanRow_zero_matrix]
    rw [traceback_unset _ _ _ _ _ _ rfl]
    rfl
  · simp only [local_alignment, fillAll_nil_right, List.length_nil,
      scanRow_m_zero]
    rw [traceback_unset _ _ _ _ _ _ rfl]
    rfl

/-- C1: the claim says the returned score is the maximum value anywhere in
the `(n+1) x (m+1)` matrix.  On sequences AB and A with `tabS` the matrix is
`d[1][1] = 5`, `d[2][1] = 4` (zeros elsewhere), so the full-matrix maximum is
5; the code scans only the last row `i = n` and returns 4.  The code
therefore violates the claim. -/
theorem c1_last_row_scan_misses_matrix_max :
    (local_alignment ['A', 'B'] ['A'] tabS).1 = 4 ∧
      matrixMax ((fillAll tabS ['A', 'B'] ['A']).1) 2 1 = 5 := by decide

/-- C3: the claim says the trace cell is the unset marker exactly when the
four-way maximum is 0.  With every penalty equal to -1, cell `(1, 1)` has
`max(up, left, diag, 0) = 0`, yet the code stores the diagonal direction in
the trace and only clamps the score, so the trace cell is not the unset
marker.  The code therefore violates the claim. -/
theorem c3_trace_not_none_at_zero :
    (fillAll tabNeg ['A'] ['A']).1 1 1 = 0 ∧
      (fillAll tabNeg ['A'] ['A']).2.1 1 1 = 'd' := by decide

lemma getVal_ptFind (t : PTab) (a b : Char) :
    getVal t a b = (ptFind t (a, b)).getD 0 := by
  unfold getVal get_penalty
  cases h : ptFind t (a, b) <;> simp [h]

lemma tabS_left_other (a b : Char) (h1 : a ≠ 'A') (h2 : a ≠ 'B') (h3 : a ≠ '*') :
    ptFind tabS (a, b) = none := by
  simp [tabS, ptFind, Prod.mk.injEq, h1, h2, h3]

lemma tabS_right_other (a b : Char) (h1 : b ≠ 'A') (h2 : b ≠ 'B') (h3 : b ≠ '*') :
    ptFind tabS (a, b) = none := by
  simp [tabS, ptFind, Prod.mk.injEq, h1, h2, h3]

lemma getVal_tabS_other (a b : Char)
    (h : (a ≠ 'A' ∧ a ≠ 'B' ∧ a ≠ '*') ∨ (b ≠ 'A' ∧ b ≠ 'B' ∧ b ≠ '*')) :
    getVal tabS a b = 0 := by
  rcases h with ⟨h1, h2, h3⟩ | ⟨h1, h2, h3⟩
  · rw [getVal_ptFind, tabS_left_other a b h1 h2 h3]
    rfl
  · rw [getVal_ptFind, tabS_right_other a b h1 h2 h3]
    rfl

lemma char_cases (x : Char) :
    x = 'A' ∨ x = 'B' ∨ x = '*' ∨ (x ≠ 'A' ∧ x ≠ 'B' ∧ x ≠ '*') := by
  by_cases h1 : x = 'A'
  · exact Or.inl h1
  by_cases h2 : x = 'B'
  · exact Or.inr (Or.inl h2)
  by_cases h3 : x = '*'
  · exact Or.inr (Or.inr (Or.inl h3))
  · exact Or.inr (Or.inr (Or.inr ⟨h1, h2, h3⟩))

lemma tabS_symm : ∀ a b : Char, getVal tabS a b = getVal tabS b a := by
  intro a b
  rcases char_cases a with ha | ha | ha | ha
  · subst ha
    rcases char_cases b with hb | hb | hb | hb
    · subst hb; decide
    · subst hb; decide
    · subst hb; decide
    · rw [getVal_tabS_other _ _ (Or.inr hb), getVal_tabS_other _ _ (Or.inl hb)]
  · subst ha
    rcases char_cases b with hb | hb | hb | hb
    · subst hb; decide
    · subst hb; decide
    · subst hb; decide
    · rw [getVal_tabS_other _ _ (Or.inr hb), getVal_tabS_other _ _ (Or.inl hb)]
  · subst ha
    rcases char_cases b with hb | hb | hb | hb
    · subst hb; decide
    · subst hb; decide
    · subst hb; decide
    · rw [getVal_tabS_other _ _ (Or.inr hb), getVal_tabS_other _ _ (Or.inl hb)]
  · rw [getVal_tabS_other _ _ (Or.inl ha), getVal_tabS_other _ _ (Or.inr ha)]

/-- C8: the claim says a symmetric penalty table gives the same score in
either argument order.  `tabS` is symmetric (`get` agrees on every swapped
pair of characters), yet the score of (AB, A) is 4 while the score of
(A, AB) is 5, because only the last row is scanned for the optimum.  The
code therefore violates the claim. -/
theorem c8_symmetric_table_asymmetric_score :
    (∀ a b : Char, getVal tabS a b = getVal tabS b a) ∧
      (local_alignment ['A', 'B'] ['A'] tabS).1 = 4 ∧
      (local_alignment ['A'] ['A', 'B'] tabS).1 = 5 :=
  ⟨tabS_symm, by decide, by decide⟩

lemma get_penalty_snd_of_some (t : PTab) (a b : Char)
    (h : (ptFind t (a, b)).isSome = true) : (get_penalty t a b).2 = t := by
  unfold get_penalty
  cases hf : ptFind t (a, b) with
  | none => rw [hf] at h; exact absurd h (by simp)
  | some v => simp [hf]

lemma getD_mem_of_lt : ∀ (l : List Char) (n : Nat) (c : Char),
    n < l.length → l.getD n c ∈ l := by
  intro l
  induction l with
  | nil => intro n c h; exact absurd h (by simp)
  | cons x xs ih =>
    intro n c h
    cases n with
    | zero => rw [List.getD_cons_zero]; exact List.mem_cons_self x xs
    | succ k =>
      rw [List.getD_cons_succ]
      exact List.mem_cons_of_mem x (ih k c (by simpa using h))

lemma fillCell_table_eq (s1 s2 : List Char) (st : FillState) (i j : Nat)
    (h1 : (ptFind st.2.2 (s1.getD (i - 1) '?', '*')).isSome = true)
    (h2 : (ptFind st.2.2 ('*', s2.getD (j - 1) '?')).isSome = true)
    (h3 : (ptFind st.2.2 (s1.getD (i - 1) '?', s2.getD (j - 1) '?')).isSome = true) :
    (fillCell s1 s2 st i j).2.2 = st.2.2 := by
  show (get_penalty
      (get_penalty (get_penalty st.2.2 (s1.getD (i - 1) '?') '*').2 '*'
        (s2.getD (j - 1) '?')).2
      (s1.getD (i - 1) '?') (s2.getD (j - 1) '?')).2 = st.2.2
  rw [get_penalty_snd_of_some _ _ _ h1, get_penalty_snd_of_some _ _ _ h2,
    get_penalty_snd_of_some _ _ _ h3]

/-- C9, counterexample: starting from the empty table, aligning A with A
queries the pair (A, gap); the `operator[]` lookup default-inserts it, so
after the call the pair is defined (value 0) though it was not before.  The
claim that the table's mapping is identical before and after the call for
every table state is therefore false. -/
theorem c9_align_inserts_missing_pair :
    ptFind (alignTable ([] : PTab) ['A'] ['A']) ('A', '*') = some 0 ∧
      ptFind ([] : PTab) ('A', '*') = none := by decide

/-- C9, amended: when the table has an entry for every pair the fill looks
up (each sequence-1 character against the gap, the gap against each
sequence-2 character, and each character pair), an alignment call leaves the
table exactly unchanged. -/
theorem c9_align_preserves_complete_table (t : PTab) (s1 s2 : List Char)
    (h1 : ∀ c ∈ s1, (ptFind t (c, '*')).isSome = true)
    (h2 : ∀ c ∈ s2, (ptFind t ('*', c)).isSome = true)
    (h3 : ∀ c ∈ s1, ∀ d ∈ s2, (ptFind t (c, d)).isSome = true) :
    alignTable t s1 s2 = t := by
  unfold alignTable fillAll
  refine foldl_invP (fun st : FillState => st.2.2 = t) _ _ _ rfl ?_
  intro st i hi hst
  refine foldl_invP (fun st : FillState => st.2.2 = t) _ _ _ hst ?_
  intro st2 j hj hst2
  have hi2 : i - 1 < s1.length := by
    have := List.mem_range'_1.mp hi
    omega
  have hj2 : j - 1 < s2.length := by
    have := List.mem_range'_1.mp hj
    omega
  have hc1 : s1.getD (i - 1) '?' ∈ s1 := getD_mem_of_lt s1 (i - 1) '?' hi2
  have hc2 : s2.getD (j - 1) '?' ∈ s2 := getD_mem_of_lt s2 (j - 1) '?' hj2
  have hfc := fillCell_table_eq s1 s2 st2 i j
    (hst2.symm ▸ h1 _ hc1) (hst2.symm ▸ h2 _ hc2) (hst2.symm ▸ h3 _ hc1 _ hc2)
  rw [hfc, hst2]

/-- Witness for C9's amended theorem: `tabS` defines every pair queried when
aligning A with A, and the call leaves it unchanged. -/
theorem c9_align_preserves_complete_table_w :
    alignTable tabS ['A'] ['A'] = tabS :=
  c9_align_preserves_complete_table tabS ['A'] ['A']
    (by decide) (by decide) (by decide)
